import Mathlib

set_option autoImplicit false

namespace Commands

/-- Python exception classes relevant to the validation code: `json.loads` raises
`json.JSONDecodeError`, a subclass of `ValueError`; the coercion constructors
(`float`, `str`, `dict`, `list`, `map`) raise `TypeError` or `ValueError`. -/
inductive PyErr where
  | typeError
  | valueError
deriving DecidableEq, Repr

/-- Python values as they occur in this pipeline: `None`, booleans, numbers,
strings, lists and dicts. Numbers are modelled as exact rationals (the code
only parses and stores them; no float arithmetic is performed, and the
claims do not depend on rounding). Dict keys are arbitrary values, as in
Python; JSON decoding only ever produces string keys. -/
inductive PyVal where
  | none
  | bool (b : Bool)
  | num (q : Rat)
  | str (s : String)
  | list (xs : List PyVal)
  | dict (entries : List (PyVal × PyVal))

/-- Structural equality on `PyVal`, mirroring Python `==` on these shapes
(Python numeric `==` across bool/int/float is not needed by the claims). -/
def pyBeq : PyVal → PyVal → Bool
  | .none, .none => true
  | .bool a, .bool b => a == b
  | .num a, .num b => a == b
  | .str a, .str b => a == b
  | .list xs, .list ys =>
      match xs, ys with
      | [], [] => true
      | x :: xs', y :: ys' => pyBeq x y && pyBeq (.list xs') (.list ys')
      | _, _ => false
  | .dict xs, .dict ys =>
      match xs, ys with
      | [], [] => true
      | (k, v) :: xs', (k', v') :: ys' =>
          pyBeq k k' && pyBeq v v' && pyBeq (.dict xs') (.dict ys')
      | _, _ => false
  | _, _ => false

/-- Python truthiness (`bool(x)`) for the modelled value shapes: `None`, `False`,
zero, the empty string, the empty list and the empty dict are falsy. -/
def pyTruthy : PyVal → Bool
  | .none => false
  | .bool b => b
  | .num q => q != 0
  | .str s => s != ""
  | .list xs => !xs.isEmpty
  | .dict es => !es.isEmpty

/-- Rendering of a rational number. The Python code renders ints and floats;
this model renders the exact rational (integers without a denominator). The
claims do not depend on the exact text of non-string renderings. -/
def pyNumRepr (q : Rat) : String :=
  if q.den = 1 then toString q.num else toString q.num ++ "/" ++ toString q.den

mutual

/-- Python `repr(x)` for the modelled value shapes (used for elements inside
containers; strings are quoted). -/
def pyRepr : PyVal → String
  | .none => "None"
  | .bool b => if b then "True" else "False"
  | .num q => pyNumRepr q
  | .str s => "'" ++ s ++ "'"
  | .list xs => "[" ++ String.intercalate ", " (pyReprList xs) ++ "]"
  | .dict es => "\x7b" ++ String.intercalate ", " (pyReprEntries es) ++ "\x7d"

/-- Python `repr` of each element of a list. -/
def pyReprList : List PyVal → List String
  | [] => []
  | x :: xs => pyRepr x :: pyReprList xs

/-- Python `repr(key): repr(value)` for each entry of a dict. -/
def pyReprEntries : List (PyVal × PyVal) → List String
  | [] => []
  | (k, v) :: es => (pyRepr k ++ ": " ++ pyRepr v) :: pyReprEntries es

end

/-- Python `str(x)`: identity on strings, `repr`-style otherwise. `str` is
total: it never raises on any value. -/
def pyStr : PyVal → String
  | .str s => s
  | v => pyRepr v

/-- Python iteration (`iter(x)` driven to a list): lists yield their elements,
strings their characters (as length-1 strings), dicts their keys; `None`,
booleans and numbers are not iterable (`TypeError`). -/
def pyIter : PyVal → Except PyErr (List PyVal)
  | .list xs => .ok xs
  | .str s => .ok (s.data.map (fun c => .str (String.singleton c)))
  | .dict es => .ok (es.map (fun e => e.1))
  | _ => .error .typeError

/-- Python hashability of the modelled shapes: lists and dicts are unhashable. -/
def pyHashable : PyVal → Bool
  | .list _ => false
  | .dict _ => false
  | _ => true

/-- Dict assignment `m[k] = v` on an insertion-ordered association list:
overwrites in place when the key is present (by Python equality), appends
otherwise. -/
def pyDictSet (m : List (PyVal × PyVal)) (k v : PyVal) : List (PyVal × PyVal) :=
  if m.any (fun e => pyBeq e.1 k) then
    m.map (fun e => if pyBeq e.1 k then (e.1, v) else e)
  else m ++ [(k, v)]

/-- One element of a dict-update sequence: must be iterable (`TypeError`
otherwise), of length exactly 2 (`ValueError` otherwise), with a hashable
key (`TypeError` otherwise), as in CPython `dict(seq)`. -/
def pyDictElem (e : PyVal) : Except PyErr (PyVal × PyVal) := do
  let items ← pyIter e
  match items with
  | [k, v] => if pyHashable k then .ok (k, v) else .error .typeError
  | _ => .error .valueError

/-- Python `dict(x)`: a dict is copied; any other iterable must yield
key-value pairs, inserted in order with later duplicates winning; `None`,
booleans and numbers raise `TypeError`. -/
def pyDict (v : PyVal) : Except PyErr (List (PyVal × PyVal)) :=
  match v with
  | .dict es => .ok es
  | other => do
      let elems ← pyIter other
      let pairs ← elems.mapM pyDictElem
      .ok (pairs.foldl (fun m e => pyDictSet m e.1 e.2) [])

/-- Numeric value of a digit run. -/
def digitsVal (cs : List Char) : Nat :=
  cs.foldl (fun a c => a * 10 + (c.toNat - 48)) 0

/-- Assemble `sign * mant / 10^fracLen * 10^exp` as an exact rational. -/
def ratOfParts (sign : Int) (mant : Nat) (fracLen : Nat) (exp : Int) : Rat :=
  let base : Rat := (sign * (mant : Int) : Int)
  let scaled := base / ((10 : Rat) ^ fracLen)
  if 0 ≤ exp then scaled * (10 : Rat) ^ exp.toNat else scaled / (10 : Rat) ^ (-exp).toNat

/-- Python `float(s)` string grammar: optional surrounding whitespace, optional
sign, digits with an optional fractional part (one of the two digit runs may
be empty but not both), optional exponent. Anything else raises `ValueError`.
(`inf`/`nan` literals and digit-group underscores are not modelled; no claim
involves them.) -/
def floatOfStr (s : String) : Except PyErr Rat :=
  let cs := s.data.dropWhile Char.isWhitespace
  let (sign, cs1) : Int × List Char :=
    match cs with
    | '+' :: r => (1, r)
    | '-' :: r => (-1, r)
    | r => (1, r)
  let (intD, cs2) := cs1.span Char.isDigit
  let (fracD, cs3) :=
    match cs2 with
    | '.' :: r => r.span Char.isDigit
    | r => ([], r)
  if intD.isEmpty && fracD.isEmpty then .error .valueError
  else
    let (exp, cs4) : Option Int × List Char :=
      match cs3 with
      | 'e' :: r | 'E' :: r =>
        let (esign, r1) : Int × List Char :=
          match r with
          | '+' :: r' => (1, r')
          | '-' :: r' => (-1, r')
          | r' => (1, r')
        let (expD, r2) := r1.span Char.isDigit
        if expD.isEmpty then (Option.none, cs3)
        else (Option.some (esign * (digitsVal expD : Int)), r2)
      | r => (Option.none, r)
    match exp with
    | Option.none =>
      if cs3.dropWhile Char.isWhitespace |>.isEmpty then
        .ok (ratOfParts sign (digitsVal (intD ++ fracD)) fracD.length 0)
      else .error .valueError
    | Option.some e =>
      if cs4.dropWhile Char.isWhitespace |>.isEmpty then
        .ok (ratOfParts sign (digitsVal (intD ++ fracD)) fracD.length e)
      else .error .valueError

/-- Python `float(x)`: numbers pass through, booleans become 0/1, strings are
parsed by the float grammar (`ValueError` on failure); `None`, lists and
dicts raise `TypeError`. -/
def pyFloat : PyVal → Except PyErr Rat
  | .num q => .ok q
  | .bool b => .ok (if b then 1 else 0)
  | .str s => floatOfStr s
  | _ => .error .typeError

/-- JSON whitespace (exactly the four characters the `json` module skips). -/
def jsonWsChar (c : Char) : Bool :=
  c == ' ' || c == '\t' || c == '\n' || c == '\r'

/-- Skip JSON whitespace. -/
def jsonSkipWs (cs : List Char) : List Char :=
  cs.dropWhile jsonWsChar

/-- Hex digit value, if any. -/
def hexVal (c : Char) : Option Nat :=
  if '0' ≤ c && c ≤ '9' then Option.some (c.toNat - 48)
  else if 'a' ≤ c && c ≤ 'f' then Option.some (c.toNat - 87)
  else if 'A' ≤ c && c ≤ 'F' then Option.some (c.toNat - 55)
  else Option.none

/-- Body of a JSON string after the opening quote: plain characters up to the
closing quote, with the standard escapes; raw control characters and
unterminated strings are decode errors (`ValueError`, as `JSONDecodeError`
subclasses it). -/
def jsonStrChars : List Char → List Char → Except PyErr (String × List Char)
  | acc, '"' :: rest => .ok (String.mk acc.reverse, rest)
  | acc, '\\' :: e :: rest =>
    match e, rest with
    | '"', r => jsonStrChars ('"' :: acc) r
    | '\\', r => jsonStrChars ('\\' :: acc) r
    | '/', r => jsonStrChars ('/' :: acc) r
    | 'b', r => jsonStrChars ('\x08' :: acc) r
    | 'f', r => jsonStrChars ('\x0c' :: acc) r
    | 'n', r => jsonStrChars ('\n' :: acc) r
    | 'r', r => jsonStrChars ('\r' :: acc) r
    | 't', r => jsonStrChars ('\t' :: acc) r
    | 'u', h1 :: h2 :: h3 :: h4 :: r =>
      match hexVal h1, hexVal h2, hexVal h3, hexVal h4 with
      | Option.some a, Option.some b, Option.some c, Option.some d =>
          jsonStrChars (Char.ofNat (((a * 16 + b) * 16 + c) * 16 + d) :: acc) r
      | _, _, _, _ => .error .valueError
    | _, _ => .error .valueError
  | acc, c :: rest =>
    if c.toNat < 32 then .error .valueError else jsonStrChars (c :: acc) rest
  | _, [] => .error .valueError

/-- JSON number grammar: `-?(0|[1-9][0-9]*)(\.[0-9]+)?([eE][+-]?[0-9]+)?`,
yielded as an exact rational. (The `json` module additionally accepts
`NaN`/`Infinity` literals; those have no finite rational value and no claim
involves them, so they are not modelled.) -/
def jsonNum (cs : List Char) : Except PyErr (Rat × List Char) :=
  let (sign, cs1) : Int × List Char :=
    match cs with
    | '-' :: r => (-1, r)
    | r => (1, r)
  let (intD, cs2) := cs1.span Char.isDigit
  match intD with
  | [] => .error .valueError
  | d0 :: ds =>
    if d0 = '0' ∧ ds ≠ [] then .error .valueError
    else
      let (fracD, cs3) :=
        match cs2 with
        | '.' :: r =>
          match r.span Char.isDigit with
          | ([], _) => ([], cs2)
          | (fd, r') => (fd, r')
        | r => ([], r)
      if (match cs2 with | '.' :: _ => fracD.isEmpty | _ => false) then .error .valueError
      else
        let (exp, cs4) : Option Int × List Char :=
          match cs3 with
          | 'e' :: r | 'E' :: r =>
            let (esign, r1) : Int × List Char :=
              match r with
              | '+' :: r' => (1, r')
              | '-' :: r' => (-1, r')
              | r' => (1, r')
            let (expD, r2) := r1.span Char.isDigit
            if expD.isEmpty then (Option.none, cs3)
            else (Option.some (esign * (digitsVal expD : Int)), r2)
          | r => (Option.none, r)
        match exp with
        | Option.none => .ok (ratOfParts sign (digitsVal (intD ++ fracD)) fracD.length 0, cs3)
        | Option.some e => .ok (ratOfParts sign (digitsVal (intD ++ fracD)) fracD.length e, cs4)

mutual

/-- One JSON value at the head of the input (leading whitespace already
skipped), fuel-bounded; decode errors are `ValueError`. -/
def jsonVal : Nat → List Char → Except PyErr (PyVal × List Char)
  | 0, _ => .error .valueError
  | _ + 1, [] => .error .valueError
  | fuel + 1, c :: cs =>
    if c = '"' then
      match jsonStrChars [] cs with
      | .ok (s, rest) => .ok (.str s, rest)
      | .error e => .error e
    else if c = '[' then jsonArrItems fuel (jsonSkipWs cs)
    else if c = Char.ofNat 123 then jsonObjEntries fuel (jsonSkipWs cs)
    else if c = 't' then
      match cs with
      | 'r' :: 'u' :: 'e' :: rest => .ok (.bool true, rest)
      | _ => .error .valueError
    else if c = 'f' then
      match cs with
      | 'a' :: 'l' :: 's' :: 'e' :: rest => .ok (.bool false, rest)
      | _ => .error .valueError
    else if c = 'n' then
      match cs with
      | 'u' :: 'l' :: 'l' :: rest => .ok (.none, rest)
      | _ => .error .valueError
    else
      match jsonNum (c :: cs) with
      | .ok (q, rest) => .ok (.num q, rest)
      | .error e => .error e

/-- Items of a JSON array, after `[` (and whitespace); handles the empty
array, then the comma-separated tail. -/
def jsonArrItems : Nat → List Char → Except PyErr (PyVal × List Char)
  | 0, _ => .error .valueError
  | fuel + 1, cs =>
    match cs with
    | ']' :: rest => .ok (.list [], rest)
    | _ =>
      match jsonVal fuel cs with
      | .error e => .error e
      | .ok (v, rest) => jsonArrRest fuel [v] (jsonSkipWs rest)

/-- Tail of a JSON array after at least one item. -/
def jsonArrRest : Nat → List PyVal → List Char → Except PyErr (PyVal × List Char)
  | 0, _, _ => .error .valueError
  | fuel + 1, acc, cs =>
    match cs with
    | ']' :: rest => .ok (.list acc.reverse, rest)
    | ',' :: rest =>
      match jsonVal fuel (jsonSkipWs rest) with
      | .error e => .error e
      | .ok (v, rest') => jsonArrRest fuel (v :: acc) (jsonSkipWs rest')
    | _ => .error .valueError

/-- Entries of a JSON object, after the opening brace (and whitespace);
handles the empty object, then the comma-separated tail. -/
def jsonObjEntries : Nat → List Char → Except PyErr (PyVal × List Char)
  | 0, _ => .error .valueError
  | fuel + 1, cs =>
    match cs with
    | c :: rest =>
      if c = Char.ofNat 125 then .ok (.dict [], rest)
      else if c = '"' then
        match jsonStrChars [] rest with
        | .error e => .error e
        | .ok (k, rest1) =>
          match jsonSkipWs rest1 with
          | ':' :: rest2 =>
            match jsonVal fuel (jsonSkipWs rest2) with
            | .error e => .error e
            | .ok (v, rest3) => jsonObjRest fuel [(.str k, v)] (jsonSkipWs rest3)
          | _ => .error .valueError
      else .error .valueError
    | [] => .error .valueError

/-- Tail of a JSON object after at least one entry; duplicate keys are
resolved later-wins, as Python dict building does. -/
def jsonObjRest : Nat → List (PyVal × PyVal) → List Char → Except PyErr (PyVal × List Char)
  | 0, _, _ => .error .valueError
  | fuel + 1, acc, cs =>
    match cs with
    | c :: rest =>
      if c = Char.ofNat 125 then
        .ok (.dict (acc.reverse.foldl (fun m e => pyDictSet m e.1 e.2) []), rest)
      else if c = ',' then
        match jsonSkipWs rest with
        | '"' :: rest1 =>
          match jsonStrChars [] rest1 with
          | .error e => .error e
          | .ok (k, rest2) =>
            match jsonSkipWs rest2 with
            | ':' :: rest3 =>
              match jsonVal fuel (jsonSkipWs rest3) with
              | .error e => .error e
              | .ok (v, rest4) => jsonObjRest fuel ((PyVal.str k, v) :: acc) (jsonSkipWs rest4)
            | _ => .error .valueError
        | _ => .error .valueError
      else .error .valueError
    | [] => .error .valueError

end

/-- Model of `json.loads(x)`: `TypeError` when the argument is not a string (the real
function also accepts `bytes`, which this model does not carry); otherwise
parse one JSON document with nothing but whitespace around it, any decode
failure being a `json.JSONDecodeError`, i.e. a `ValueError`. -/
def json_loads : PyVal → Except PyErr PyVal
  | .str s =>
    match jsonVal (2 * s.length + 8) (jsonSkipWs s.data) with
    | .ok (v, rest) => if (jsonSkipWs rest).isEmpty then .ok v else .error .valueError
    | .error e => .error e
  | _ => .error .typeError

/-! ## The `Param` declaration model (`src/commands/base.py`) -/

/-- The enum `Param.TYPE`: the closed set of logical parameter types. -/
inductive PTYPE where
  | BLOB
  | FILE
  | NUMBER
  | STRING
  | OBJECT
  | BLOB_ARRAY
  | FILE_ARRAY
  | NUMBER_ARRAY
  | STRING_ARRAY
  | OBJECT_ARRAY
deriving DecidableEq, Repr

/-- The `.value` string of each `Param.TYPE` member. -/
def PTYPE.value : PTYPE → String
  | .BLOB => "blob"
  | .FILE => "file"
  | .NUMBER => "number"
  | .STRING => "string"
  | .OBJECT => "object"
  | .BLOB_ARRAY => "blob[]"
  | .FILE_ARRAY => "file[]"
  | .NUMBER_ARRAY => "number[]"
  | .STRING_ARRAY => "string[]"
  | .OBJECT_ARRAY => "object[]"

/-- The constructor `Param(name, type, required=True, default=None)`. The default value is a
`PyVal`, with `PyVal.none` standing for Python `None`. -/
structure Param where
  name : String
  type : PTYPE
  required : Bool := true
  default : PyVal := .none

/-- Property `Param.is_multipart`: true exactly for `BLOB_ARRAY` and `FILE_ARRAY`. -/
def Param.is_multipart (p : Param) : Bool :=
  p.type == PTYPE.BLOB_ARRAY || p.type == PTYPE.FILE_ARRAY

/-- Property `Param.key`: the name suffixed with `[]` for multipart params, the bare `name` otherwise. -/
def Param.key (p : Param) : String :=
  if p.is_multipart then p.name ++ "[]" else p.name

/-- Property `Param.is_serialized`: membership of the type in the list of the six
transport-encoded types. -/
def Param.is_serialized (p : Param) : Bool :=
  p.type == PTYPE.NUMBER || p.type == PTYPE.STRING || p.type == PTYPE.OBJECT ||
  p.type == PTYPE.NUMBER_ARRAY || p.type == PTYPE.STRING_ARRAY || p.type == PTYPE.OBJECT_ARRAY

/-- Method `Param.dictify`: the serializable definition `{name, type, required}`,
with a `default` entry added only when `self.default` is truthy. -/
def Param.dictify (p : Param) : List (String × PyVal) :=
  let definition : List (String × PyVal) :=
    [("name", .str p.name), ("type", .str p.type.value), ("required", .bool p.required)]
  if pyTruthy p.default then definition ++ [("default", p.default)] else definition

/-! ## Request data (`django.http.QueryDict` as used by the code) -/

/-- The incoming command data: an insertion-ordered multi-valued mapping from
string keys to lists of values, as Django's `QueryDict` presents form and
multipart data. Form-field values are `PyVal.str`; file/blob uploads are
whatever native values the framework supplies. -/
def QueryDict : Type := List (String × List PyVal)

/-- The value list stored under a key, if the key is present. -/
def qdFind (d : QueryDict) (k : String) : Option (List PyVal) :=
  (List.find? (fun e => e.1 == k) d).map (fun e => e.2)

/-- Membership test `key in command_data`. -/
def qdContains (d : QueryDict) (k : String) : Bool :=
  (qdFind d k).isSome

/-- Extraction `command_data.getlist(key)`: every value posted under the key ([] when
absent). -/
def qdGetlist (d : QueryDict) (k : String) : List PyVal :=
  (qdFind d k).getD []

/-- Subscription `command_data[key]` on a `MultiValueDict`: the last value in the list
(Django returns `[]` when the stored list is empty; the missing-key branch
raises in Django and is never reached by the code, which only subscripts
keys it has found present). -/
def qdGetItem (d : QueryDict) (k : String) : PyVal :=
  match qdFind d k with
  | Option.none => PyVal.none
  | Option.some vs => vs.getLastD (PyVal.list [])

/-! ## `CommandHandlerBase` (`src/commands/base.py`) -/

/-- The module-level `build_param_message(missing_params)`. -/
def build_param_message (missing_params : List String) : String :=
  "The following parameters were missing: " ++ String.intercalate ", " missing_params

/-- The module-level `build_param_type_message(invalid_params)`. -/
def build_param_type_message (invalid_params : List String) : String :=
  "The following parameters were of the wrong type: " ++ String.intercalate ", " invalid_params

/-- The static data of a `CommandHandlerBase` subclass. -/
structure CommandHandler where
  command_name : String := ""
  auth_required : Bool := false
  params : List Param := []
  required_permissions : List String := []

/-- Classmethod `validate_auth`: `request.user.is_authenticated()` if `auth_required`,
else `True`. The request is abstracted to its authentication bit. -/
def CommandHandler.validate_auth (c : CommandHandler) (is_authenticated : Bool) : Bool :=
  if c.auth_required then is_authenticated else true

/-- Classmethod `validate_permissions`: `request.user.has_perms(required_permissions)`.
The user is abstracted to the permission-checking capability. -/
def CommandHandler.validate_permissions (c : CommandHandler)
    (has_perms : List String → Bool) : Bool :=
  has_perms c.required_permissions

/-- Classmethod `validate_param_existence`: collect the names of required params whose
key is absent; `(False, message)` when any, `(True, "")` otherwise. -/
def CommandHandler.validate_param_existence (c : CommandHandler) (command_data : QueryDict) :
    Bool × String :=
  let missing :=
    (c.params.filter (fun p => p.required && !(qdContains command_data p.key))).map Param.name
  if missing.length > 0 then (false, build_param_message missing)
  else (true, "")

/-- Classmethod `to_definition`: the pair of `command_name` and the dictified params. -/
def CommandHandler.to_definition (c : CommandHandler) : String × List (List (String × PyVal)) :=
  (c.command_name, c.params.map Param.dictify)

/-- The raw-extraction step of `validate_param_types` for one param:
`command_data.getlist(param.key)` for multipart params, otherwise
`json.loads(command_data[param.key])` — the latter can raise, and in the
source it stands before the `try:` block, so its exceptions leave the
function. -/
def extractValues (d : QueryDict) (p : Param) : Except PyErr PyVal :=
  if p.is_multipart then .ok (.list (qdGetlist d p.key))
  else json_loads (qdGetItem d p.key)

/-- The `try:`-block body of `validate_param_types` for one param: the
type-directed coercion applied to `values`. -/
def coerceValue : PTYPE → PyVal → Except PyErr PyVal
  | .BLOB, values => .ok values
  | .FILE, values => .ok values
  | .NUMBER, values => (pyFloat values).map PyVal.num
  | .STRING, values => .ok (.str (pyStr values))
  | .OBJECT, values => (pyDict values).map PyVal.dict
  | .BLOB_ARRAY, values => (pyIter values).map PyVal.list
  | .FILE_ARRAY, values => (pyIter values).map PyVal.list
  | .NUMBER_ARRAY, values => do
      let xs ← pyIter values
      let qs ← xs.mapM pyFloat
      .ok (.list (qs.map PyVal.num))
  | .STRING_ARRAY, values => do
      let xs ← pyIter values
      .ok (.list (xs.map (fun x => .str (pyStr x))))
  | .OBJECT_ARRAY, values => do
      let xs ← pyIter values
      let ds ← xs.mapM pyDict
      .ok (.list (ds.map PyVal.dict))

/-- Assignment `resultant_typed_params[param.name] = v` on the
insertion-ordered result dict (string keys). -/
def dictSet (m : List (String × PyVal)) (k : String) (v : PyVal) : List (String × PyVal) :=
  if m.any (fun e => e.1 == k) then
    m.map (fun e => if e.1 == k then (e.1, v) else e)
  else m ++ [(k, v)]

/-- Lookup in the result dict. -/
def lookupStr (m : List (String × PyVal)) (k : String) : Option PyVal :=
  (List.find? (fun e => e.1 == k) m).map (fun e => e.2)

/-- The `for param in existing:` loop of `validate_param_types`, over the
accumulated `(invalid, resultant_typed_params)` state. Per iteration:
extraction failure (the `json.loads` call sits outside the `try:`) raises
out of the loop; a coercion `TypeError` is caught by `except TypeError`
and appends the name to `invalid`; a coercion `ValueError` is not caught
and raises out of the loop. -/
def vptLoop (d : QueryDict) :
    List Param → List String × List (String × PyVal) →
    Except PyErr (List String × List (String × PyVal))
  | [], acc => .ok acc
  | p :: rest, (invalid, typed) =>
    match extractValues d p with
    | .error e => .error e
    | .ok values =>
      match coerceValue p.type values with
      | .ok v => vptLoop d rest (invalid, dictSet typed p.name v)
      | .error .typeError => vptLoop d rest (invalid ++ [p.name], typed)
      | .error .valueError => .error PyErr.valueError

/-- The observable outcome of `validate_param_types`: the `(False, message)`
return, the `(True, typed_params)` return, or an uncaught exception. -/
inductive VptOutcome where
  | failure (message : String)
  | success (typed : List (String × PyVal))
  | raised (e : PyErr)

/-- Classmethod `validate_param_types(command_data)`: filter `params` down to those whose
key is in the data, run the loop, then return `(False, message)` when any
names were collected as invalid and `(True, resultant_typed_params)`
otherwise; exceptions from the loop propagate. -/
def CommandHandler.validate_param_types (c : CommandHandler) (command_data : QueryDict) :
    VptOutcome :=
  let existing := c.params.filter (fun p => qdContains command_data p.key)
  match vptLoop command_data existing ([], []) with
  | .error e => .raised e
  | .ok (invalid, resultant_typed_params) =>
    if invalid.length > 0 then .failure (build_param_type_message invalid)
    else .success resultant_typed_params

/-- Lookup into the typed mapping of a success outcome (`none` on the other
outcomes). -/
def vptSuccessLookup (o : VptOutcome) (k : String) : Option PyVal :=
  match o with
  | .success m => lookupStr m k
  | _ => Option.none

/-! ## Concrete contracts used to instantiate the claims -/

/-- A handler with one required `number` parameter `age` (spec scenario). -/
def ageHandler : CommandHandler :=
  { command_name := "age-cmd", params := [{ name := "age", type := .NUMBER }] }

/-- The `greet` handler of the spec scenario: one required `string`
parameter `target`. -/
def greetHandler : CommandHandler :=
  { command_name := "greet", params := [{ name := "target", type := .STRING }] }

/-- A handler with one required `string[]` parameter `tags` (spec scenario). -/
def tagsHandler : CommandHandler :=
  { command_name := "tags-cmd", params := [{ name := "tags", type := .STRING_ARRAY }] }

/-- A handler with one required `blob` parameter `doc`. -/
def docHandler : CommandHandler :=
  { command_name := "doc-cmd", params := [{ name := "doc", type := .BLOB }] }

/-- A handler with one required `string` parameter `s`. -/
def strHandler : CommandHandler :=
  { command_name := "str-cmd", params := [{ name := "s", type := .STRING }] }

/-- A handler with required `a`, required `b`, optional `c`. -/
def abcHandler : CommandHandler :=
  { command_name := "abc",
    params := [{ name := "a", type := .NUMBER }, { name := "b", type := .OBJECT },
               { name := "c", type := .STRING, required := false }] }

/-! ## Association-list lemmas for the typed-result dict -/

theorem lookupStr_nil (k : String) : lookupStr [] k = Option.none := rfl

theorem lookupStr_cons (e : String × PyVal) (m : List (String × PyVal)) (k : String) :
    lookupStr (e :: m) k = if e.1 == k then Option.some e.2 else lookupStr m k := by
  cases h : (e.1 == k) with
  | true => simp [lookupStr, List.find?_cons_of_pos, h]
  | false => simp [lookupStr, List.find?_cons_of_neg, h]

theorem overwriteFst (k : String) (v : PyVal) (e : String × PyVal) :
    (if e.1 == k then (e.1, v) else e).1 = e.1 := by
  cases hek : (e.1 == k) with
  | true => simp only [hek, if_true]
  | false => simp only [hek, Bool.false_eq_true, if_false]

theorem lookupStr_overwrite (k : String) (v : PyVal) :
    ∀ m : List (String × PyVal), m.any (fun e => e.1 == k) = true →
      lookupStr (m.map (fun e => if e.1 == k then (e.1, v) else e)) k = Option.some v := by
  intro m
  induction m with
  | nil => intro h; simp at h
  | cons e m ih =>
    intro h
    rw [List.any_cons] at h
    rw [List.map_cons, lookupStr_cons, overwriteFst k v e]
    cases he : (e.1 == k) with
    | true => simp only [he, if_true]
    | false =>
      simp only [he, Bool.false_or] at h
      simp only [he, Bool.false_eq_true, if_false]
      exact ih h

theorem lookupStr_append_single (k : String) (v : PyVal) :
    ∀ m : List (String × PyVal), m.any (fun e => e.1 == k) = false →
      lookupStr (m ++ [(k, v)]) k = Option.some v := by
  intro m
  induction m with
  | nil =>
    intro _
    rw [List.nil_append, lookupStr_cons]
    simp only [beq_self_eq_true, if_true]
  | cons e m ih =>
    intro h
    rw [List.any_cons] at h
    cases he : (e.1 == k) with
    | true => simp [he] at h
    | false =>
      simp only [he, Bool.false_or] at h
      rw [List.cons_append, lookupStr_cons]
      simp only [he, Bool.false_eq_true, if_false]
      exact ih h

theorem lookupStr_overwrite_ne (k : String) (v : PyVal) (k' : String) (hne : k' ≠ k) :
    ∀ m : List (String × PyVal),
      lookupStr (m.map (fun e => if e.1 == k then (e.1, v) else e)) k' = lookupStr m k' := by
  intro m
  induction m with
  | nil => rfl
  | cons e m ih =>
    rw [List.map_cons, lookupStr_cons, lookupStr_cons, overwriteFst k v e, ih]
    cases he : (e.1 == k') with
    | true =>
      have hek : (e.1 == k) = false := by
        cases hek : (e.1 == k) with
        | true => exact absurd ((beq_iff_eq.mp he).symm.trans (beq_iff_eq.mp hek)) hne
        | false => rfl
      simp only [he, hek, if_true, Bool.false_eq_true, if_false]
    | false => simp only [he, Bool.false_eq_true, if_false]

theorem lookupStr_append_single_ne (k : String) (v : PyVal) (k' : String) (hne : k' ≠ k) :
    ∀ m : List (String × PyVal), lookupStr (m ++ [(k, v)]) k' = lookupStr m k' := by
  intro m
  induction m with
  | nil =>
    rw [List.nil_append, lookupStr_cons]
    have hkk : (k == k') = false := by
      cases hkk : (k == k') with
      | true => exact absurd (beq_iff_eq.mp hkk).symm hne
      | false => rfl
    simp only [hkk, Bool.false_eq_true, if_false]
  | cons e m ih =>
    rw [List.cons_append, lookupStr_cons, lookupStr_cons, ih]

theorem lookupStr_dictSet_self (m : List (String × PyVal)) (k : String) (v : PyVal) :
    lookupStr (dictSet m k v) k = Option.some v := by
  unfold dictSet
  cases h : m.any (fun e => e.1 == k) with
  | true => simpa using lookupStr_overwrite k v m h
  | false => simpa using lookupStr_append_single k v m h

theorem lookupStr_dictSet_ne (m : List (String × PyVal)) (k : String) (v : PyVal)
    (k' : String) (hne : k' ≠ k) :
    lookupStr (dictSet m k v) k' = lookupStr m k' := by
  unfold dictSet
  cases h : m.any (fun e => e.1 == k) with
  | true => simpa using lookupStr_overwrite_ne k v k' hne m
  | false => simpa using lookupStr_append_single_ne k v k' hne m

theorem lookupStr_dictSet_isSome (m : List (String × PyVal)) (k : String) (v : PyVal)
    (k' : String) :
    (lookupStr (dictSet m k v) k').isSome = true ↔
      k' = k ∨ (lookupStr m k').isSome = true := by
  by_cases hk : k' = k
  · subst hk
    simp [lookupStr_dictSet_self]
  · rw [lookupStr_dictSet_ne m k v k' hk]
    simp [hk]

/-! ## Lemmas about the `validate_param_types` loop -/

theorem vptLoop_len (d : QueryDict) :
    ∀ (ps : List Param) (inv : List String) (t : List (String × PyVal)) (inv' : List String)
      (t' : List (String × PyVal)),
      vptLoop d ps (inv, t) = .ok (inv', t') → inv.length ≤ inv'.length := by
  intro ps
  induction ps with
  | nil =>
    intro inv t inv' t' h
    simp only [vptLoop, Except.ok.injEq, Prod.mk.injEq] at h
    rw [h.1]
  | cons p rest ih =>
    intro inv t inv' t' h
    cases hex : extractValues d p with
    | error e =>
      simp only [vptLoop, hex] at h
      exact Except.noConfusion h
    | ok values =>
      simp only [vptLoop, hex] at h
      cases hco : coerceValue p.type values with
      | ok v =>
        simp only [hco] at h
        exact ih _ _ _ _ h
      | error e =>
        cases e with
        | typeError =>
          simp only [hco] at h
          have := ih _ _ _ _ h
          simp only [List.length_append, List.length_cons, List.length_nil] at this
          omega
        | valueError =>
          simp only [hco] at h
          exact Except.noConfusion h

theorem vptLoop_invalid_mem (d : QueryDict) :
    ∀ (ps : List Param) (inv : List String) (t : List (String × PyVal)) (inv' : List String)
      (t' : List (String × PyVal)),
      vptLoop d ps (inv, t) = .ok (inv', t') → ∀ n, n ∈ inv' →
        n ∈ inv ∨ ∃ p, p ∈ ps ∧ p.name = n ∧ ∃ raw, extractValues d p = .ok raw ∧
          coerceValue p.type raw = .error PyErr.typeError := by
  intro ps
  induction ps with
  | nil =>
    intro inv t inv' t' h n hn
    simp only [vptLoop, Except.ok.injEq, Prod.mk.injEq] at h
    rw [← h.1] at hn
    exact Or.inl hn
  | cons p rest ih =>
    intro inv t inv' t' h n hn
    cases hex : extractValues d p with
    | error e =>
      simp only [vptLoop, hex] at h
      exact Except.noConfusion h
    | ok values =>
      simp only [vptLoop, hex] at h
      cases hco : coerceValue p.type values with
      | ok v =>
        simp only [hco] at h
        rcases ih _ _ _ _ h n hn with hi | ⟨q, hq, hqs⟩
        · exact Or.inl hi
        · exact Or.inr ⟨q, List.mem_cons_of_mem p hq, hqs⟩
      | error e =>
        cases e with
        | typeError =>
          simp only [hco] at h
          rcases ih _ _ _ _ h n hn with hi | ⟨q, hq, hqs⟩
          · rcases List.mem_append.mp hi with hi' | hi'
            · exact Or.inl hi'
            · rcases List.mem_singleton.mp hi' with rfl
              exact Or.inr ⟨p, List.mem_cons_self p rest, rfl, values, hex, hco⟩
          · exact Or.inr ⟨q, List.mem_cons_of_mem p hq, hqs⟩
        | valueError =>
          simp only [hco] at h
          exact Except.noConfusion h

theorem vptLoop_steps (d : QueryDict) :
    ∀ (ps : List Param) (inv : List String) (t : List (String × PyVal)) (inv' : List String)
      (t' : List (String × PyVal)),
      vptLoop d ps (inv, t) = .ok (inv', t') → ∀ p, p ∈ ps →
        ∃ raw, extractValues d p = .ok raw ∧
          coerceValue p.type raw ≠ .error PyErr.valueError := by
  intro ps
  induction ps with
  | nil =>
    intro inv t inv' t' _ p hp
    exact absurd hp (List.not_mem_nil p)
  | cons q rest ih =>
    intro inv t inv' t' h p hp
    cases hex : extractValues d q with
    | error e =>
      simp only [vptLoop, hex] at h
      exact Except.noConfusion h
    | ok values =>
      simp only [vptLoop, hex] at h
      cases hco : coerceValue q.type values with
      | ok v =>
        simp only [hco] at h
        rcases List.mem_cons.mp hp with rfl | hp'
        · exact ⟨values, hex, by rw [hco]; intro hc; exact Except.noConfusion hc⟩
        · exact ih _ _ _ _ h p hp'
      | error e =>
        cases e with
        | typeError =>
          simp only [hco] at h
          rcases List.mem_cons.mp hp with rfl | hp'
          · refine ⟨values, hex, ?_⟩
            rw [hco]
            intro hc
            exact PyErr.noConfusion (Except.error.inj hc)
          · exact ih _ _ _ _ h p hp'
        | valueError =>
          simp only [hco] at h
          exact Except.noConfusion h

theorem vptLoop_lookup_mono (d : QueryDict) :
    ∀ (ps : List Param) (inv : List String) (t : List (String × PyVal)) (inv' : List String)
      (t' : List (String × PyVal)),
      vptLoop d ps (inv, t) = .ok (inv', t') → ∀ k, (lookupStr t k).isSome = true →
        (lookupStr t' k).isSome = true := by
  intro ps
  induction ps with
  | nil =>
    intro inv t inv' t' h k hk
    simp only [vptLoop, Except.ok.injEq, Prod.mk.injEq] at h
    rw [← h.2]
    exact hk
  | cons p rest ih =>
    intro inv t inv' t' h k hk
    cases hex : extractValues d p with
    | error e =>
      simp only [vptLoop, hex] at h
      exact Except.noConfusion h
    | ok values =>
      simp only [vptLoop, hex] at h
      cases hco : coerceValue p.type values with
      | ok v =>
        simp only [hco] at h
        exact ih _ _ _ _ h k ((lookupStr_dictSet_isSome t p.name v k).mpr (Or.inr hk))
      | error e =>
        cases e with
        | typeError =>
          simp only [hco] at h
          exact ih _ _ _ _ h k hk
        | valueError =>
          simp only [hco] at h
          exact Except.noConfusion h

theorem vptLoop_all_ok (d : QueryDict) :
    ∀ (ps : List Param) (inv : List String) (t : List (String × PyVal)) (inv' : List String)
      (t' : List (String × PyVal)),
      vptLoop d ps (inv, t) = .ok (inv', t') → inv'.length = inv.length → ∀ p, p ∈ ps →
        ∃ raw v, extractValues d p = .ok raw ∧ coerceValue p.type raw = .ok v := by
  intro ps
  induction ps with
  | nil =>
    intro inv t inv' t' _ _ p hp
    exact absurd hp (List.not_mem_nil p)
  | cons q rest ih =>
    intro inv t inv' t' h hlen p hp
    cases hex : extractValues d q with
    | error e =>
      simp only [vptLoop, hex] at h
      exact Except.noConfusion h
    | ok values =>
      simp only [vptLoop, hex] at h
      cases hco : coerceValue q.type values with
      | ok v =>
        simp only [hco] at h
        rcases List.mem_cons.mp hp with rfl | hp'
        · exact ⟨values, v, hex, hco⟩
        · exact ih _ _ _ _ h hlen p hp'
      | error e =>
        cases e with
        | typeError =>
          simp only [hco] at h
          have := vptLoop_len d _ _ _ _ _ h
          simp only [List.length_append, List.length_cons, List.length_nil] at this
          omega
        | valueError =>
          simp only [hco] at h
          exact Except.noConfusion h

theorem vptLoop_names_present (d : QueryDict) :
    ∀ (ps : List Param) (inv : List String) (t : List (String × PyVal)) (inv' : List String)
      (t' : List (String × PyVal)),
      vptLoop d ps (inv, t) = .ok (inv', t') → inv'.length = inv.length → ∀ p, p ∈ ps →
        (lookupStr t' p.name).isSome = true := by
  intro ps
  induction ps with
  | nil =>
    intro inv t inv' t' _ _ p hp
    exact absurd hp (List.not_mem_nil p)
  | cons q rest ih =>
    intro inv t inv' t' h hlen p hp
    cases hex : extractValues d q with
    | error e =>
      simp only [vptLoop, hex] at h
      exact Except.noConfusion h
    | ok values =>
      simp only [vptLoop, hex] at h
      cases hco : coerceValue q.type values with
      | ok v =>
        simp only [hco] at h
        rcases List.mem_cons.mp hp with rfl | hp'
        · exact vptLoop_lookup_mono d _ _ _ _ _ h p.name
            ((lookupStr_dictSet_isSome t p.name v p.name).mpr (Or.inl rfl))
        · exact ih _ _ _ _ h hlen p hp'
      | error e =>
        cases e with
        | typeError =>
          simp only [hco] at h
          have := vptLoop_len d _ _ _ _ _ h
          simp only [List.length_append, List.length_cons, List.length_nil] at this
          omega
        | valueError =>
          simp only [hco] at h
          exact Except.noConfusion h

theorem vptLoop_keys_sub (d : QueryDict) :
    ∀ (ps : List Param) (inv : List String) (t : List (String × PyVal)) (inv' : List String)
      (t' : List (String × PyVal)),
      vptLoop d ps (inv, t) = .ok (inv', t') → ∀ k, (lookupStr t' k).isSome = true →
        (lookupStr t k).isSome = true ∨ ∃ p, p ∈ ps ∧ p.name = k := by
  intro ps
  induction ps with
  | nil =>
    intro inv t inv' t' h k hk
    simp only [vptLoop, Except.ok.injEq, Prod.mk.injEq] at h
    rw [← h.2] at hk
    exact Or.inl hk
  | cons q rest ih =>
    intro inv t inv' t' h k hk
    cases hex : extractValues d q with
    | error e =>
      simp only [vptLoop, hex] at h
      exact Except.noConfusion h
    | ok values =>
      simp only [vptLoop, hex] at h
      cases hco : coerceValue q.type values with
      | ok v =>
        simp only [hco] at h
        rcases ih _ _ _ _ h k hk with hi | ⟨p, hp, hpn⟩
        · rcases (lookupStr_dictSet_isSome t q.name v k).mp hi with rfl | hi'
          · exact Or.inr ⟨q, List.mem_cons_self q rest, rfl⟩
          · exact Or.inl hi'
        · exact Or.inr ⟨p, List.mem_cons_of_mem q hp, hpn⟩
      | error e =>
        cases e with
        | typeError =>
          simp only [hco] at h
          rcases ih _ _ _ _ h k hk with hi | ⟨p, hp, hpn⟩
          · exact Or.inl hi
          · exact Or.inr ⟨p, List.mem_cons_of_mem q hp, hpn⟩
        | valueError =>
          simp only [hco] at h
          exact Except.noConfusion h

theorem vptLoop_lookup_preserve (d : QueryDict) :
    ∀ (ps : List Param) (k : String), (∀ q, q ∈ ps → q.name ≠ k) →
      ∀ (inv : List String) (t : List (String × PyVal)) (inv' : List String)
        (t' : List (String × PyVal)),
        vptLoop d ps (inv, t) = .ok (inv', t') → lookupStr t' k = lookupStr t k := by
  intro ps
  induction ps with
  | nil =>
    intro k _ inv t inv' t' h
    simp only [vptLoop, Except.ok.injEq, Prod.mk.injEq] at h
    rw [← h.2]
  | cons q rest ih =>
    intro k hnames inv t inv' t' h
    cases hex : extractValues d q with
    | error e =>
      simp only [vptLoop, hex] at h
      exact Except.noConfusion h
    | ok values =>
      simp only [vptLoop, hex] at h
      cases hco : coerceValue q.type values with
      | ok v =>
        simp only [hco] at h
        rw [ih k (fun r hr => hnames r (List.mem_cons_of_mem q hr)) _ _ _ _ h]
        exact lookupStr_dictSet_ne t q.name v k
          (fun hk => hnames q (List.mem_cons_self q rest) hk.symm)
      | error e =>
        cases e with
        | typeError =>
          simp only [hco] at h
          exact ih k (fun r hr => hnames r (List.mem_cons_of_mem q hr)) _ _ _ _ h
        | valueError =>
          simp only [hco] at h
          exact Except.noConfusion h

theorem vptLoop_lookup_final (d : QueryDict) :
    ∀ (ps : List Param), (ps.map Param.name).Nodup →
      ∀ (inv : List String) (t : List (String × PyVal)) (inv' : List String)
        (t' : List (String × PyVal)),
        vptLoop d ps (inv, t) = .ok (inv', t') → ∀ p, p ∈ ps → ∀ raw v,
          extractValues d p = .ok raw → coerceValue p.type raw = .ok v →
            lookupStr t' p.name = Option.some v := by
  intro ps
  induction ps with
  | nil =>
    intro _ inv t inv' t' _ p hp
    exact absurd hp (List.not_mem_nil p)
  | cons q rest ih =>
    intro hnd inv t inv' t' h p hp raw v hraw hv
    rw [List.map_cons, List.nodup_cons] at hnd
    cases hex : extractValues d q with
    | error e =>
      simp only [vptLoop, hex] at h
      exact Except.noConfusion h
    | ok values =>
      simp only [vptLoop, hex] at h
      rcases List.mem_cons.mp hp with rfl | hp'
      · rw [hraw] at hex
        have hvals : values = raw := (Except.ok.inj hex).symm
        rw [hvals, hv] at h
        simp only [] at h
        have hpres : ∀ r, r ∈ rest → r.name ≠ p.name := by
          intro r hr heq
          exact hnd.1 (heq ▸ List.mem_map_of_mem Param.name hr)
        rw [vptLoop_lookup_preserve d rest p.name hpres _ _ _ _ h]
        exact lookupStr_dictSet_self t p.name v
      · cases hco : coerceValue q.type values with
        | ok w =>
          simp only [hco] at h
          exact ih hnd.2 _ _ _ _ h p hp' raw v hraw hv
        | error e =>
          cases e with
          | typeError =>
            simp only [hco] at h
            exact ih hnd.2 _ _ _ _ h p hp' raw v hraw hv
          | valueError =>
            simp only [hco] at h
            exact Except.noConfusion h

theorem vptLoop_of_all_ok (d : QueryDict) :
    ∀ (ps : List Param) (inv : List String) (t : List (String × PyVal)),
      (∀ p, p ∈ ps → ∃ raw v, extractValues d p = .ok raw ∧ coerceValue p.type raw = .ok v) →
      ∃ t', vptLoop d ps (inv, t) = .ok (inv, t') := by
  intro ps
  induction ps with
  | nil =>
    intro inv t _
    exact ⟨t, rfl⟩
  | cons q rest ih =>
    intro inv t hall
    obtain ⟨raw, v, hraw, hv⟩ := hall q (List.mem_cons_self q rest)
    obtain ⟨t', ht'⟩ := ih inv (dictSet t q.name v)
      (fun p hp => hall p (List.mem_cons_of_mem q hp))
    refine ⟨t', ?_⟩
    simp only [vptLoop, hraw, hv]
    exact ht'

/-! ## Small facts about the request-data mapping -/

theorem qdFind_single_self (n : String) (xs : List PyVal) :
    qdFind [(n, xs)] n = Option.some xs := by
  simp [qdFind, List.find?]

theorem qdContains_single_self (n : String) (xs : List PyVal) :
    qdContains [(n, xs)] n = true := by
  simp [qdContains, qdFind_single_self]

theorem qdGetlist_single (n : String) (xs : List PyVal) :
    qdGetlist [(n, xs)] n = xs := by
  simp [qdGetlist, qdFind_single_self]

theorem qdGetItem_single (n : String) (x : PyVal) :
    qdGetItem [(n, [x])] n = x := by
  simp [qdGetItem, qdFind_single_self]

/-- For a handler whose contract is a single parameter that is present in the
data and whose extraction and coercion both succeed, `validate_param_types`
returns the one-entry typed mapping. -/
theorem validate_single_ok (c : CommandHandler) (p : Param) (d : QueryDict) (raw v : PyVal)
    (hps : c.params = [p]) (hc : qdContains d p.key = true)
    (he : extractValues d p = .ok raw) (hv : coerceValue p.type raw = .ok v) :
    c.validate_param_types d = .success [(p.name, v)] := by
  unfold CommandHandler.validate_param_types
  rw [hps]
  have hfilter : List.filter (fun p => qdContains d p.key) [p] = [p] := by
    simp [List.filter, hc]
  rw [hfilter]
  simp only [vptLoop, he, hv]
  rfl

/-! ## The claims -/

/-- C1: The claim says a transport-encoded parameter whose raw string fails
to decode is recorded as a per-parameter type failure, processing continues,
and the failure "is never raised out of the function". In the code the
`json.loads` call stands *before* the `try:` block, so the decode failure
(a `json.JSONDecodeError`, i.e. a `ValueError`) is raised out of
`validate_param_types` and aborts the whole pass: for the required `number`
parameter `age` with raw value `"not json"`, the outcome is an uncaught
`ValueError`, not a batched `InvalidParams` result. -/
theorem C1_decode_failure_raises :
    ageHandler.validate_param_types [("age", [PyVal.str "not json"])] =
      .raised PyErr.valueError := by
  rfl

/-- C2: The claim says every coercion failure is added to the invalid list
and reported in one batched type failure; its own scenario is `age:number`
with data `{"age": "\"not-a-number\""}`. In the code the loop catches only
`TypeError`, and `float("not-a-number")` raises `ValueError`, so that very
scenario raises out of `validate_param_types` instead of returning the
batched failure. The second conjunct shows the accumulation machinery does
work for `TypeError`-raising coercions (`float(None)` and `dict(3)`), which
is what makes the uncaught `ValueError` a slip rather than a design. -/
theorem C2_valueError_not_accumulated :
    ageHandler.validate_param_types [("age", [PyVal.str "\"not-a-number\""])] =
      .raised PyErr.valueError ∧
    abcHandler.validate_param_types [("a", [PyVal.str "null"]), ("b", [PyVal.str "3"])] =
      .failure (build_param_type_message ["a", "b"]) := by
  exact ⟨rfl, rfl⟩

/-- C3 counterexample: The claim says every array-typed parameter
(number[], string[], object[], blob[], file[]) has a transport key that
differs from its name by the `[]` suffix. For a `string[]` parameter named
`tags`, `is_multipart` is false, so the key equals the name and is not
`tags[]`. -/
theorem C3_string_array_key_not_suffixed :
    Param.key { name := "tags", type := PTYPE.STRING_ARRAY } = "tags" ∧
    Param.key { name := "tags", type := PTYPE.STRING_ARRAY } ≠ "tags" ++ "[]" := by
  refine ⟨rfl, ?_⟩
  intro h
  exact absurd h (by decide)

/-- C3 amended: Only `blob[]` and `file[]` parameters have the suffixed
transport key `name[]`, and for those multivalued extraction yields the full
sequence of values posted under that repeated key; for every other type,
`number[]`, `string[]` and `object[]` included, the transport key equals the
name. The `tags:string[]` scenario instead posts one JSON-encoded string
under the key `tags`, and coerces to `{"tags": ["a", "b"]}`. -/
theorem C3_transport_keys (p : Param) (d : QueryDict) :
    (p.key = if p.type = PTYPE.BLOB_ARRAY ∨ p.type = PTYPE.FILE_ARRAY
             then p.name ++ "[]" else p.name) ∧
    (p.is_multipart = true → extractValues d p = .ok (.list (qdGetlist d p.key))) ∧
    tagsHandler.validate_param_types [("tags", [PyVal.str "[\"a\", \"b\"]"])] =
      .success [("tags", PyVal.list [PyVal.str "a", PyVal.str "b"])] := by
  refine ⟨?_, ?_, ?_⟩
  · unfold Param.key Param.is_multipart
    cases hty : p.type <;> simp [hty]
  · intro hmp
    simp [extractValues, hmp]
  · rfl

/-- C4 counterexample: The claim says `blob` and `file` parameters are
passed through raw, never subjected to the string-decode step. In the code
only `is_multipart` (i.e. `blob[]`/`file[]`) parameters skip `json.loads`:
a single `blob` parameter posted as `"\"x\""` is stored as the decoded
string `x`, not as the raw value, and a single `blob` parameter whose raw
value is not valid JSON makes `validate_param_types` raise. -/
theorem C4_blob_is_decoded :
    docHandler.validate_param_types [("doc", [PyVal.str "\"x\""])] =
      .success [("doc", PyVal.str "x")] ∧
    PyVal.str "x" ≠ PyVal.str "\"x\"" ∧
    docHandler.validate_param_types [("doc", [PyVal.str "x"])] =
      .raised PyErr.valueError := by
  refine ⟨rfl, ?_, rfl⟩
  intro h
  exact absurd (PyVal.str.inj h) (by decide)

/-- C4 amended: Only `blob[]` and `file[]` parameters bypass decoding:
their raw posted sequence is passed through unparsed. Single `blob` and
`file` parameters go through the same `json.loads` decode step as the
transport-encoded types, and the decoded value (not the raw string) is what
reaches the typed mapping. -/
theorem C4_single_blob_decoded_multipart_raw (n s : String) (v : PyVal) (vs : List PyVal)
    (ty ty2 : PTYPE) (hty : ty = PTYPE.BLOB ∨ ty = PTYPE.FILE)
    (hty2 : ty2 = PTYPE.BLOB_ARRAY ∨ ty2 = PTYPE.FILE_ARRAY)
    (hdec : json_loads (PyVal.str s) = .ok v) :
    CommandHandler.validate_param_types { command_name := "c", params := [{ name := n, type := ty }] }
      [(n, [PyVal.str s])] = .success [(n, v)] ∧
    CommandHandler.validate_param_types { command_name := "c", params := [{ name := n, type := ty2 }] }
      [(n ++ "[]", vs)] = .success [(n, PyVal.list vs)] := by
  constructor
  · have hkey : Param.key { name := n, type := ty } = n := by
      rcases hty with rfl | rfl <;> rfl
    refine validate_single_ok _ { name := n, type := ty } _ v v rfl ?_ ?_ ?_
    · rw [hkey]
      exact qdContains_single_self n [PyVal.str s]
    · have hmp : Param.is_multipart { name := n, type := ty } = false := by
        rcases hty with rfl | rfl <;> rfl
      simp only [extractValues, hmp, Bool.false_eq_true, if_false, hkey,
        qdGetItem_single]
      exact hdec
    · rcases hty with rfl | rfl <;> rfl
  · have hkey : Param.key { name := n, type := ty2 } = n ++ "[]" := by
      rcases hty2 with rfl | rfl <;> rfl
    refine validate_single_ok _ { name := n, type := ty2 } _ (PyVal.list vs) (PyVal.list vs)
      rfl ?_ ?_ ?_
    · rw [hkey]
      exact qdContains_single_self (n ++ "[]") vs
    · have hmp : Param.is_multipart { name := n, type := ty2 } = true := by
        rcases hty2 with rfl | rfl <;> rfl
      simp only [extractValues, hmp, if_true, hkey, qdGetlist_single]
    · rcases hty2 with rfl | rfl <;> rfl

/-- Witness for C4 (amended): a concrete `blob` value `"x"` posted JSON-encoded
is decoded, and a concrete `blob[]` pair of raw values passes through. -/
theorem C4_single_blob_decoded_multipart_raw_witness :
    CommandHandler.validate_param_types
        { command_name := "c", params := [{ name := "doc", type := PTYPE.BLOB }] }
        [("doc", [PyVal.str "\"x\""])] = .success [("doc", PyVal.str "x")] ∧
    CommandHandler.validate_param_types
        { command_name := "c", params := [{ name := "doc", type := PTYPE.BLOB_ARRAY }] }
        [("doc" ++ "[]", [PyVal.str "r1", PyVal.str "r2"])] =
      .success [("doc", PyVal.list [PyVal.str "r1", PyVal.str "r2"])] :=
  C4_single_blob_decoded_multipart_raw "doc" "\"x\"" (PyVal.str "x")
    [PyVal.str "r1", PyVal.str "r2"] PTYPE.BLOB PTYPE.BLOB_ARRAY
    (Or.inl rfl) (Or.inl rfl) (by rfl)

/-- Witness for C3 (amended): instantiated at a `blob[]` parameter `files`
posted under the repeated key `files[]`. -/
theorem C3_transport_keys_witness :
    extractValues [("files[]", [PyVal.str "r1", PyVal.str "r2"])]
        { name := "files", type := PTYPE.BLOB_ARRAY } =
      .ok (.list [PyVal.str "r1", PyVal.str "r2"]) := by
  have h := (C3_transport_keys { name := "files", type := PTYPE.BLOB_ARRAY }
    [("files[]", [PyVal.str "r1", PyVal.str "r2"])]).2.1 (by rfl)
  rw [h]
  rfl

/-- Names of a filtered parameter list stay duplicate-free when the full name
list is duplicate-free. -/
theorem nodup_names_filter (ps : List Param) (f : Param → Bool)
    (hnd : (ps.map Param.name).Nodup) : ((ps.filter f).map Param.name).Nodup :=
  List.Nodup.sublist (List.Sublist.map Param.name (List.filter_sublist ps)) hnd

/-- C5: `validate_param_existence` fails exactly when some required
parameter's transport key is absent from the data, and on failure its
message is built from the list of the names of all such parameters, which
(for a contract with unique names) contains every absent required name
exactly once, none omitted. -/
theorem C5_existence_lists_all_missing (c : CommandHandler) (d : QueryDict)
    (hnd : (c.params.map Param.name).Nodup) :
    ((c.validate_param_existence d).1 = false ↔
      ∃ p, p ∈ c.params ∧ p.required = true ∧ qdContains d p.key = false) ∧
    ((c.validate_param_existence d).1 = false →
      (c.validate_param_existence d).2 =
        build_param_message
          ((c.params.filter (fun p => p.required && !(qdContains d p.key))).map Param.name)) ∧
    ((c.params.filter (fun p => p.required && !(qdContains d p.key))).map Param.name).Nodup ∧
    (∀ n, n ∈ (c.params.filter (fun p => p.required && !(qdContains d p.key))).map Param.name ↔
      ∃ p, p ∈ c.params ∧ p.name = n ∧ p.required = true ∧ qdContains d p.key = false) := by
  refine ⟨?_, ?_, nodup_names_filter c.params _ hnd, ?_⟩
  · by_cases hm :
      0 < ((c.params.filter (fun p => p.required && !(qdContains d p.key))).map Param.name).length
    · simp only [CommandHandler.validate_param_existence, List.length_map] at hm ⊢
      simp only [hm, if_pos hm]
      constructor
      · intro _
        rw [List.length_pos] at hm
        obtain ⟨p, hp⟩ := List.exists_mem_of_ne_nil _ hm
        rw [List.mem_filter, Bool.and_eq_true, Bool.not_eq_true'] at hp
        exact ⟨p, hp.1, hp.2.1, hp.2.2⟩
      · intro _
        rfl
    · simp only [CommandHandler.validate_param_existence, List.length_map] at hm ⊢
      simp only [if_neg hm]
      constructor
      · intro h
        exact absurd h (by simp)
      · rintro ⟨p, hp, hreq, habs⟩
        exfalso
        apply hm
        rw [List.length_pos]
        exact List.ne_nil_of_mem (List.mem_filter.mpr
          ⟨hp, by rw [Bool.and_eq_true, Bool.not_eq_true']; exact ⟨hreq, habs⟩⟩)
  · intro hfail
    by_cases hm :
      0 < ((c.params.filter (fun p => p.required && !(qdContains d p.key))).map Param.name).length
    · simp only [CommandHandler.validate_param_existence, List.length_map] at hm ⊢
      simp only [if_pos hm]
    · simp only [CommandHandler.validate_param_existence, List.length_map] at hm hfail
      simp only [if_neg hm] at hfail
      exact absurd hfail (by simp)
  · intro n
    simp only [List.mem_map, List.mem_filter, Bool.and_eq_true, Bool.not_eq_true']
    constructor
    · rintro ⟨p, ⟨hp, hreq, habs⟩, hn⟩
      exact ⟨p, hp, hn, hreq, habs⟩
    · rintro ⟨p, hp, hn, hreq, habs⟩
      exact ⟨p, ⟨hp, hreq, habs⟩, hn⟩

/-- Witness for C5: for the `abc` contract (required `a`, required `b`,
optional `c`) with only `c` posted, the check fails and the message lists
`a` and `b`, each once. -/
theorem C5_existence_lists_all_missing_witness :
    (abcHandler.validate_param_existence [("c", [PyVal.str "\"z\""])]).1 = false ∧
    (abcHandler.validate_param_existence [("c", [PyVal.str "\"z\""])]).2 =
      build_param_message ["a", "b"] := by
  have h := C5_existence_lists_all_missing abcHandler [("c", [PyVal.str "\"z\""])] (by decide)
  have hfail : (abcHandler.validate_param_existence [("c", [PyVal.str "\"z\""])]).1 = false := by
    apply h.1.mpr
    refine ⟨{ name := "a", type := PTYPE.NUMBER }, ?_, rfl, ?_⟩
    · exact List.mem_cons_self _ _
    · rfl
  refine ⟨hfail, ?_⟩
  rw [h.2.1 hfail]
  rfl

/-- C6: When every declared parameter that is present in the data extracts
and coerces successfully, `validate_param_types` succeeds, and the mapping's
value at each such parameter's name is exactly its coerced value. -/
theorem C6_well_typed_success (c : CommandHandler) (d : QueryDict)
    (hnd : (c.params.map Param.name).Nodup)
    (hall : ∀ p, p ∈ c.params → qdContains d p.key = true →
      ∃ raw v, extractValues d p = .ok raw ∧ coerceValue p.type raw = .ok v) :
    ∃ m, c.validate_param_types d = .success m ∧
      ∀ p, p ∈ c.params → ∀ raw v, qdContains d p.key = true →
        extractValues d p = .ok raw → coerceValue p.type raw = .ok v →
          lookupStr m p.name = Option.some v := by
  have hex : ∀ p, p ∈ c.params.filter (fun p => qdContains d p.key) →
      ∃ raw v, extractValues d p = .ok raw ∧ coerceValue p.type raw = .ok v := by
    intro p hp
    rw [List.mem_filter] at hp
    exact hall p hp.1 hp.2
  obtain ⟨t', ht'⟩ :=
    vptLoop_of_all_ok d (c.params.filter (fun p => qdContains d p.key)) [] [] hex
  refine ⟨t', ?_, ?_⟩
  · simp only [CommandHandler.validate_param_types, ht']
    rfl
  · intro p hp raw v hc hraw hv
    exact vptLoop_lookup_final d _
      (nodup_names_filter c.params _ hnd) [] [] [] t' ht' p
      (List.mem_filter.mpr ⟨hp, hc⟩) raw v hraw hv

/-- Witness for C6: the spec's success scenario — `greet` with
`data = {"target": "\"world\""}` coerces to `{"target": "world"}`. -/
theorem C6_well_typed_success_witness :
    vptSuccessLookup
        (greetHandler.validate_param_types [("target", [PyVal.str "\"world\""])]) "target" =
      Option.some (PyVal.str "world") := by
  obtain ⟨m, hm, hl⟩ :=
    C6_well_typed_success greetHandler [("target", [PyVal.str "\"world\""])] (by decide)
      (by
        intro p hp _
        rcases List.mem_singleton.mp hp with rfl
        exact ⟨PyVal.str "world", PyVal.str "world", by rfl, rfl⟩)
  have hv : vptSuccessLookup
      (greetHandler.validate_param_types [("target", [PyVal.str "\"world\""])]) "target" =
        lookupStr m "target" := by
    rw [hm]
    rfl
  rw [hv]
  exact hl { name := "target", type := PTYPE.STRING } (List.mem_cons_self _ _)
    (PyVal.str "world") (PyVal.str "world") rfl (by rfl) rfl

/-- C7: A required `number[]` parameter whose posted value decodes to zero
elements is valid and maps to the empty sequence, while the same parameter
absent from the data makes the existence check fail listing its name:
absence is never an empty valid array. -/
theorem C7_empty_array_vs_missing (n : String) :
    CommandHandler.validate_param_types
        { command_name := "c", params := [{ name := n, type := PTYPE.NUMBER_ARRAY }] }
        [(n, [PyVal.str "[]"])] = .success [(n, PyVal.list [])] ∧
    CommandHandler.validate_param_existence
        { command_name := "c", params := [{ name := n, type := PTYPE.NUMBER_ARRAY }] }
        [] = (false, build_param_message [n]) := by
  constructor
  · refine validate_single_ok _ { name := n, type := PTYPE.NUMBER_ARRAY } _
      (PyVal.list []) (PyVal.list []) rfl ?_ ?_ ?_
    · exact qdContains_single_self n [PyVal.str "[]"]
    · have hmp : Param.is_multipart { name := n, type := PTYPE.NUMBER_ARRAY } = false := rfl
      have hkey : Param.key { name := n, type := PTYPE.NUMBER_ARRAY } = n := rfl
      simp only [extractValues, hmp, Bool.false_eq_true, if_false, hkey, qdGetItem_single]
      rfl
    · rfl
  · rfl

/-- C8: `Param.dictify` includes the `default` key only when the stored
default is truthy; with any falsy default the definition is exactly
`{name, type, required}`, indistinguishable from a `Param` built with no
default at all. -/
theorem C8_default_only_when_truthy (p : Param) :
    (pyTruthy p.default = false →
      p.dictify = Param.dictify { p with default := PyVal.none } ∧
      p.dictify.map Prod.fst = ["name", "type", "required"]) ∧
    (pyTruthy p.default = true →
      p.dictify.map Prod.fst = ["name", "type", "required", "default"]) := by
  constructor
  · intro hf
    constructor
    · simp only [Param.dictify, hf]
      rfl
    · simp only [Param.dictify, hf, Bool.false_eq_true, if_false]
      rfl
  · intro ht
    simp only [Param.dictify, ht, if_true]
    rfl

/-- Witness for C8: an explicit falsy default (`0`) produces the same
definition as no default. -/
theorem C8_default_only_when_truthy_witness :
    Param.dictify { name := "a", type := PTYPE.NUMBER, required := true, default := PyVal.num 0 } =
      Param.dictify { name := "a", type := PTYPE.NUMBER, required := true, default := PyVal.none } :=
  ((C8_default_only_when_truthy
    { name := "a", type := PTYPE.NUMBER, required := true, default := PyVal.num 0 }).1
    (by decide)).1

/-- C9: On success the typed mapping contains exactly the names of the
declared parameters whose transport key is present in the data; keys in the
data matching no declared parameter are ignored and never appear. -/
theorem C9_success_keys (c : CommandHandler) (d : QueryDict) (m : List (String × PyVal))
    (hs : c.validate_param_types d = .success m) :
    ∀ k, (lookupStr m k).isSome = true ↔
      ∃ p, p ∈ c.params ∧ qdContains d p.key = true ∧ p.name = k := by
  intro k
  cases hv : vptLoop d (c.params.filter (fun p => qdContains d p.key)) ([], []) with
  | error e =>
    rw [CommandHandler.validate_param_types] at hs
    simp only [hv] at hs
    exact VptOutcome.noConfusion hs
  | ok pr =>
    obtain ⟨inv, t'⟩ := pr
    rw [CommandHandler.validate_param_types] at hs
    simp only [hv] at hs
    by_cases hl : inv.length > 0
    · rw [if_pos hl] at hs
      exact VptOutcome.noConfusion hs
    · rw [if_neg hl] at hs
      have hm : t' = m := VptOutcome.success.inj hs
      subst hm
      constructor
      · intro hk
        rcases vptLoop_keys_sub d _ [] [] inv t' hv k hk with h0 | ⟨p, hp, hn⟩
        · exact absurd h0 (by simp [lookupStr])
        · rw [List.mem_filter] at hp
          exact ⟨p, hp.1, hp.2, hn⟩
      · rintro ⟨p, hp, hc, rfl⟩
        exact vptLoop_names_present d _ [] [] inv t' hv
          (by simp only [List.length_nil]; omega) p
          (List.mem_filter.mpr ⟨hp, hc⟩)

/-- Witness for C9: with an extraneous `extra` key posted alongside `target`,
the success mapping contains `target` (and, per the theorem's iff, nothing
for undeclared keys). -/
theorem C9_success_keys_witness :
    (lookupStr [("target", PyVal.str "world")] "target").isSome = true :=
  (C9_success_keys greetHandler
      [("target", [PyVal.str "\"world\""]), ("extra", [PyVal.str "1"])]
      [("target", PyVal.str "world")] (by rfl) "target").mpr
    ⟨{ name := "target", type := PTYPE.STRING }, List.mem_cons_self _ _, by rfl, rfl⟩

/-- C10: A `string`-typed parameter whose raw value decodes successfully is
never added to the invalid list, whatever the decoded value's shape: `str()`
is total, so the coercion cannot fail, and when the parameter is present its
name maps to the string rendering of the decoded value. -/
theorem C10_string_never_invalid (c : CommandHandler) (d : QueryDict) (p : Param) (v : PyVal)
    (hnd : (c.params.map Param.name).Nodup) (hp : p ∈ c.params) (hty : p.type = PTYPE.STRING)
    (hdec : json_loads (qdGetItem d p.key) = .ok v) :
    ∀ inv t, vptLoop d (c.params.filter (fun q => qdContains d q.key)) ([], []) = .ok (inv, t) →
      p.name ∉ inv ∧
        (qdContains d p.key = true → lookupStr t p.name = Option.some (.str (pyStr v))) := by
  intro inv t hloop
  have hmp : p.is_multipart = false := by
    rw [Param.is_multipart, hty]
    rfl
  have hextract : extractValues d p = .ok v := by
    simp only [extractValues, hmp, Bool.false_eq_true, if_false]
    exact hdec
  have hco : coerceValue p.type v = .ok (.str (pyStr v)) := by
    rw [hty]
    rfl
  constructor
  · intro hin
    rcases vptLoop_invalid_mem d _ [] [] inv t hloop p.name hin with h0 | ⟨q, hq, hqn, raw, hqe, hqc⟩
    · exact absurd h0 (List.not_mem_nil _)
    · have hq' : q ∈ c.params := (List.mem_filter.mp hq).1
      have hqp : q = p := List.inj_on_of_nodup_map hnd hq' hp hqn
      subst hqp
      rw [hextract] at hqe
      have hraw : raw = v := (Except.ok.inj hqe).symm
      rw [hraw, hco] at hqc
      exact Except.noConfusion hqc
  · intro hc
    exact vptLoop_lookup_final d _ (nodup_names_filter c.params _ hnd) [] [] inv t hloop p
      (List.mem_filter.mpr ⟨hp, hc⟩) v (.str (pyStr v)) hextract hco

/-- Witness for C10: a `string` parameter whose raw value decodes to a JSON
*array* still coerces (to its string rendering) instead of being flagged. -/
theorem C10_string_never_invalid_witness :
    lookupStr [("s", PyVal.str "[]")] "s" =
      Option.some (PyVal.str (pyStr (PyVal.list []))) :=
  (C10_string_never_invalid strHandler [("s", [PyVal.str "[]"])]
      { name := "s", type := PTYPE.STRING } (PyVal.list [])
      (by decide) (List.mem_cons_self _ _) rfl (by rfl)
      [] [("s", PyVal.str "[]")] (by rfl)).2 rfl

end Commands
